import Mathlib

/-!
Shallow embedding of `scripts/generate_loc_stats.py` (LOC statistics
generator).  Python dictionaries are modelled as association lists in
insertion order (inserting an existing key replaces its value in place,
a new key is appended), Python `int` as `Int`, HTTP responses as a record
of the fields the script reads, and the network / file system as explicit
input values and effect traces.  Timestamps are integer Unix seconds.
-/

/-- One week's cached change counts: the `{"a": ..., "d": ...}` values stored
under a week-start key in the cache (and the `a`/`d` fields of the API's
week objects). -/
structure WeekData where
  a : Int
  d : Int
deriving DecidableEq, Repr

/-- One repository's cache entry, as written by `_process_repo`:
`{"etag": ..., "is_private": ..., "weeks": {...}, "last_fetched": ...}`.
Week keys are stored by the script as `str(w)` of an integer and read back
with `int(...)`; we keep them as the integers themselves. -/
structure RepoEntry where
  etag : Option String
  is_private : Bool
  weeks : List (Int × WeekData)
  last_fetched : String
deriving DecidableEq, Repr

/-- The `cache["repos"]` mapping: repository full name to its entry. -/
abbrev Cache := List (String × RepoEntry)

/-- `TIME_FRAMES`: window label to day span (`0` meaning "All Time"). -/
def TIME_FRAMES : List (String × Int) :=
  [("All Time", 0), ("Last Year", 365), ("Last Month", 30), ("Last Week", 7)]

/-- The lower-bound timestamp `compute_timeframes` derives for one window:
`0` for a zero day span, otherwise `int((now - timedelta(days=days)).timestamp())`. -/
def boundaryOf (nowTs days : Int) : Int :=
  if days = 0 then 0 else nowTs - days * 86400

/-- Sum of `week.get("a", 0)` over every cached week whose key passes the
window's `week_ts >= start_ts` test. -/
def frameAdds (c : Cache) (b : Int) : Int :=
  (c.map (fun e => (((e.2.weeks.filter (fun q => b ≤ q.1)).map (fun q => q.2.a))).sum)).sum

/-- Sum of `week.get("d", 0)` over every cached week whose key passes the
window's `week_ts >= start_ts` test. -/
def frameDels (c : Cache) (b : Int) : Int :=
  (c.map (fun e => (((e.2.weeks.filter (fun q => b ≤ q.1)).map (fun q => q.2.d))).sum)).sum

/-- One window's aggregate: `additions`, `deletions`, `total`. -/
structure Totals where
  additions : Int
  deletions : Int
  total : Int
deriving DecidableEq, Repr

/-- `compute_timeframes`: fold the cached weekly data into per-window totals.
The source accumulates all four windows during a single traversal of the
cache; summing per window over the same weeks yields the same totals, since
each `result[label]` is only ever increased by the `a`/`d` of weeks passing
that label's bound. -/
def compute_timeframes (c : Cache) (nowTs : Int) : List (String × Totals) :=
  TIME_FRAMES.map (fun f =>
    let b := boundaryOf nowTs f.2
    let adds := frameAdds c b
    let dels := frameDels c b
    (f.1, ⟨adds, dels, adds + dels⟩))

/-- Look one window up in the aggregate, defaulting to zeroes like the
consumer's `stats.get(label, {"additions": 0, "deletions": 0, "total": 0})`. -/
def windowTotals (c : Cache) (nowTs : Int) (label : String) : Totals :=
  (((compute_timeframes c nowTs).find? (fun p => p.1 == label)).map (fun p => p.2)).getD ⟨0, 0, 0⟩

/-- Sum of additions over literally every cached week, no filtering. -/
def sumAllAdds (c : Cache) : Int :=
  (c.map (fun e => (e.2.weeks.map (fun q => q.2.a)).sum)).sum

/-- Sum of deletions over literally every cached week, no filtering. -/
def sumAllDels (c : Cache) : Int :=
  (c.map (fun e => (e.2.weeks.map (fun q => q.2.d)).sum)).sum

lemma windowTotals_allTime (c : Cache) (nowTs : Int) :
    windowTotals c nowTs "All Time" =
      ⟨frameAdds c 0, frameDels c 0, frameAdds c 0 + frameDels c 0⟩ := rfl

lemma windowTotals_lastYear (c : Cache) (nowTs : Int) :
    windowTotals c nowTs "Last Year" =
      ⟨frameAdds c (nowTs - 365 * 86400), frameDels c (nowTs - 365 * 86400),
        frameAdds c (nowTs - 365 * 86400) + frameDels c (nowTs - 365 * 86400)⟩ := rfl

lemma windowTotals_lastMonth (c : Cache) (nowTs : Int) :
    windowTotals c nowTs "Last Month" =
      ⟨frameAdds c (nowTs - 30 * 86400), frameDels c (nowTs - 30 * 86400),
        frameAdds c (nowTs - 30 * 86400) + frameDels c (nowTs - 30 * 86400)⟩ := rfl

lemma windowTotals_lastWeek (c : Cache) (nowTs : Int) :
    windowTotals c nowTs "Last Week" =
      ⟨frameAdds c (nowTs - 7 * 86400), frameDels c (nowTs - 7 * 86400),
        frameAdds c (nowTs - 7 * 86400) + frameDels c (nowTs - 7 * 86400)⟩ := rfl

lemma sum_filter_le_sum_filter (l : List (Int × WeekData)) (f : Int × WeekData → Int)
    (hb : b₁ ≤ b₂) (hf : ∀ q ∈ l, 0 ≤ f q) :
    ((l.filter (fun q => b₂ ≤ q.1)).map f).sum ≤ ((l.filter (fun q => b₁ ≤ q.1)).map f).sum := by
  induction l with
  | nil => simp
  | cons x xs ih =>
    have hx : 0 ≤ f x := hf x (by simp)
    have ihx := ih (fun q hq => hf q (by simp [hq]))
    by_cases h2 : b₂ ≤ x.1
    · have h1 : b₁ ≤ x.1 := le_trans hb h2
      simp only [List.filter_cons, h2, h1, decide_eq_true_eq, if_true, List.map_cons,
        List.sum_cons, if_pos]
      omega
    · by_cases h1 : b₁ ≤ x.1
      · simp only [List.filter_cons, h2, h1, decide_eq_true_eq, if_pos, if_neg,
          not_false_eq_true, List.map_cons, List.sum_cons]
        omega
      · simp only [List.filter_cons, h2, h1, decide_eq_true_eq, if_neg, not_false_eq_true]
        exact ihx

lemma frameAdds_mono (c : Cache) (b₁ b₂ : Int) (hb : b₁ ≤ b₂)
    (hw : ∀ e ∈ c, ∀ q ∈ e.2.weeks, 0 ≤ q.2.a) :
    frameAdds c b₂ ≤ frameAdds c b₁ := by
  induction c with
  | nil => simp [frameAdds]
  | cons e es ih =>
    have h1 := sum_filter_le_sum_filter e.2.weeks (fun q => q.2.a) hb
      (fun q hq => hw e (by simp) q hq)
    have h2 := ih (fun e' he' q hq => hw e' (by simp [he']) q hq)
    simp only [frameAdds, List.map_cons, List.sum_cons] at h1 h2 ⊢
    omega

lemma frameDels_mono (c : Cache) (b₁ b₂ : Int) (hb : b₁ ≤ b₂)
    (hw : ∀ e ∈ c, ∀ q ∈ e.2.weeks, 0 ≤ q.2.d) :
    frameDels c b₂ ≤ frameDels c b₁ := by
  induction c with
  | nil => simp [frameDels]
  | cons e es ih =>
    have h1 := sum_filter_le_sum_filter e.2.weeks (fun q => q.2.d) hb
      (fun q hq => hw e (by simp) q hq)
    have h2 := ih (fun e' he' q hq => hw e' (by simp [he']) q hq)
    simp only [frameDels, List.map_cons, List.sum_cons] at h1 h2 ⊢
    omega

/-- C2 (amended): for every cache and current time, the "All Time" window sums
exactly the cached weeks whose week-start timestamp is ≥ 0 (the source compares
`week_ts >= 0` for the zero-day frame); whenever every cached week-start is
non-negative this equals the sum over literally every week bucket of every
repository, for additions and deletions alike, and total = additions + deletions. -/
theorem C2_allTime_sums_every_week (c : Cache) (nowTs : Int)
    (h : ∀ e ∈ c, ∀ q ∈ e.2.weeks, 0 ≤ q.1) :
    windowTotals c nowTs "All Time" =
      ⟨sumAllAdds c, sumAllDels c, sumAllAdds c + sumAllDels c⟩ := by
  have hfilter : ∀ e ∈ c, e.2.weeks.filter (fun q => (0 : Int) ≤ q.1) = e.2.weeks := by
    intro e he
    apply List.filter_eq_self.mpr
    intro q hq
    simpa using h e he q hq
  have ha : frameAdds c 0 = sumAllAdds c := by
    unfold frameAdds sumAllAdds
    congr 1
    apply List.map_congr_left
    intro e he
    rw [hfilter e he]
  have hd : frameDels c 0 = sumAllDels c := by
    unfold frameDels sumAllDels
    congr 1
    apply List.map_congr_left
    intro e he
    rw [hfilter e he]
  rw [windowTotals_allTime, ha, hd]

theorem C2_allTime_sums_every_week_witness :
    (let c : Cache := [("o/x", ⟨some "W/\"e\"", false, [(1704067200, ⟨3, 4⟩), (1704672000, ⟨5, 6⟩)], "t"⟩)]
     windowTotals c 1706000000 "All Time" = ⟨8, 10, 18⟩ ∧ sumAllAdds c = 8 ∧ sumAllDels c = 10) := by
  refine ⟨?_, by decide, by decide⟩
  have := C2_allTime_sums_every_week
    [("o/x", ⟨some "W/\"e\"", false, [(1704067200, ⟨3, 4⟩), (1704672000, ⟨5, 6⟩)], "t"⟩)]
    1706000000 (by decide)
  rw [this]
  decide

/-- C2 counterexample: a cache holding a single week bucket with a negative
week-start timestamp (a pre-1970 week, producible by the history-walk on a
repository with a bogus pre-epoch commit date).  The "All Time" aggregate
filters it out (`week_ts >= 0` fails), so its additions are 0 even though the
sum over literally every week bucket is 1 — refuting "no filtering of weeks by
their week-start timestamp". -/
theorem C2_counterexample :
    windowTotals [("o/r", ⟨none, false, [(-604800, ⟨1, 0⟩)], "t"⟩)] 1700000000 "All Time" =
        ⟨0, 0, 0⟩ ∧
      sumAllAdds [("o/r", ⟨none, false, [(-604800, ⟨1, 0⟩)], "t"⟩)] = 1 := by
  constructor
  · decide
  · decide

/-- C10: for every cache whose week buckets all have non-negative additions and
deletions and every current time at least 365 days past the Unix epoch, the
window totals are monotone in the window's span: for additions, deletions and
total alike, "All Time" ≥ "Last Year" ≥ "Last Month" ≥ "Last Week". -/
theorem C10_windows_monotone (c : Cache) (nowTs : Int)
    (hw : ∀ e ∈ c, ∀ q ∈ e.2.weeks, 0 ≤ q.2.a ∧ 0 ≤ q.2.d)
    (hnow : 365 * 86400 ≤ nowTs) :
    ((windowTotals c nowTs "Last Week").additions ≤ (windowTotals c nowTs "Last Month").additions ∧
      (windowTotals c nowTs "Last Month").additions ≤ (windowTotals c nowTs "Last Year").additions ∧
      (windowTotals c nowTs "Last Year").additions ≤ (windowTotals c nowTs "All Time").additions) ∧
    ((windowTotals c nowTs "Last Week").deletions ≤ (windowTotals c nowTs "Last Month").deletions ∧
      (windowTotals c nowTs "Last Month").deletions ≤ (windowTotals c nowTs "Last Year").deletions ∧
      (windowTotals c nowTs "Last Year").deletions ≤ (windowTotals c nowTs "All Time").deletions) ∧
    ((windowTotals c nowTs "Last Week").total ≤ (windowTotals c nowTs "Last Month").total ∧
      (windowTotals c nowTs "Last Month").total ≤ (windowTotals c nowTs "Last Year").total ∧
      (windowTotals c nowTs "Last Year").total ≤ (windowTotals c nowTs "All Time").total) := by
  have hwa : ∀ e ∈ c, ∀ q ∈ e.2.weeks, 0 ≤ q.2.a := fun e he q hq => (hw e he q hq).1
  have hwd : ∀ e ∈ c, ∀ q ∈ e.2.weeks, 0 ≤ q.2.d := fun e he q hq => (hw e he q hq).2
  have aWM := frameAdds_mono c (nowTs - 30 * 86400) (nowTs - 7 * 86400) (by omega) hwa
  have aMY := frameAdds_mono c (nowTs - 365 * 86400) (nowTs - 30 * 86400) (by omega) hwa
  have aYA := frameAdds_mono c 0 (nowTs - 365 * 86400) (by omega) hwa
  have dWM := frameDels_mono c (nowTs - 30 * 86400) (nowTs - 7 * 86400) (by omega) hwd
  have dMY := frameDels_mono c (nowTs - 365 * 86400) (nowTs - 30 * 86400) (by omega) hwd
  have dYA := frameDels_mono c 0 (nowTs - 365 * 86400) (by omega) hwd
  simp only [windowTotals_allTime, windowTotals_lastYear, windowTotals_lastMonth,
    windowTotals_lastWeek]
  exact ⟨⟨aWM, aMY, aYA⟩, ⟨dWM, dMY, dYA⟩,
    ⟨by omega, by omega, by omega⟩⟩

theorem C10_windows_monotone_witness :
    (let c : Cache := [("o/x", ⟨none, true, [(0, ⟨1, 2⟩), (31536000, ⟨10, 20⟩)], "t"⟩)]
     let n : Int := 365 * 86400 + 100
     ((windowTotals c n "Last Week").additions ≤ (windowTotals c n "Last Month").additions ∧
       (windowTotals c n "Last Month").additions ≤ (windowTotals c n "Last Year").additions ∧
       (windowTotals c n "Last Year").additions ≤ (windowTotals c n "All Time").additions) ∧
     ((windowTotals c n "Last Week").deletions ≤ (windowTotals c n "Last Month").deletions ∧
       (windowTotals c n "Last Month").deletions ≤ (windowTotals c n "Last Year").deletions ∧
       (windowTotals c n "Last Year").deletions ≤ (windowTotals c n "All Time").deletions) ∧
     ((windowTotals c n "Last Week").total ≤ (windowTotals c n "Last Month").total ∧
       (windowTotals c n "Last Month").total ≤ (windowTotals c n "Last Year").total ∧
       (windowTotals c n "Last Year").total ≤ (windowTotals c n "All Time").total)) :=
  C10_windows_monotone
    [("o/x", ⟨none, true, [(0, ⟨1, 2⟩), (31536000, ⟨10, 20⟩)], "t"⟩)]
    (365 * 86400 + 100) (by decide) (by decide)

/-- One element of the week lists returned by the statistics API or by the
history-walk fallback: `{"w": week_start, "a": additions, "d": deletions}`. -/
structure ApiWeek where
  w : Int
  a : Int
  d : Int
deriving DecidableEq, Repr

/-- Python `cache["repos"].get(full_name)`. -/
def lookupRepo (c : Cache) (fn : String) : Option RepoEntry :=
  (c.find? (fun p => p.1 == fn)).map (fun p => p.2)

/-- Python `cache["repos"][full_name] = entry`: replace the value in place if
the key is present (keys are unique in dicts produced by the script), append
otherwise. -/
def setRepo : Cache → String → RepoEntry → Cache
  | [], fn, e => [(fn, e)]
  | p :: ps, fn, e => if p.1 == fn then (fn, e) :: ps else p :: setRepo ps fn e

/-- The same dict-assignment discipline for the week map built in
`_process_repo`'s cache-update step. -/
def insertWeek : List (Int × WeekData) → Int → WeekData → List (Int × WeekData)
  | [], k, v => [(k, v)]
  | p :: ps, k, v => if p.1 == k then (k, v) :: ps else p :: insertWeek ps k v

/-- `weeks_dict`: the `{str(w.get("w", 0)): {"a": ..., "d": ...}}` map built
from a week list before it is stored in the cache. -/
def weeksDict (ws : List ApiWeek) : List (Int × WeekData) :=
  ws.foldl (fun m w => insertWeek m w.w ⟨w.a, w.d⟩) []

/-- Truthiness of `cached_repo.get("weeks")` where
`cached_repo = cache["repos"].get(full_name, {})`: the entry exists and holds
a non-empty week map. -/
def cachedWeeksNonempty (c : Cache) (fn : String) : Bool :=
  match lookupRepo c fn with
  | some e => !e.weeks.isEmpty
  | none => false

/-- `_process_repo`, as a pure cache transformer.  The network result of the
statistics call is passed in as `(weeks, newEtag, status)` exactly as
`get_contributor_stats` returns it; the history-walk fallback
`clone_and_count` is modelled by the week list `fb` it would return.  The
second component counts how many times the fallback was invoked. -/
def process_repo (fn : String) (isPriv : Bool) (c : Cache)
    (weeks : Option (List ApiWeek)) (newEtag : Option String) (status : Nat)
    (fb : List ApiWeek) (nowIso : String) : Cache × Nat :=
  if status = 304 then
    (c, 0)
  else
    match weeks with
    | some ws =>
      if ws.length > 0 then
        let total_a : Int := (ws.map (fun w => w.a)).sum
        let total_d : Int := (ws.map (fun w => w.d)).sum
        if total_a = 0 ∧ total_d = 0 then
          (setRepo c fn ⟨newEtag, isPriv, weeksDict fb, nowIso⟩, 1)
        else
          (setRepo c fn ⟨newEtag, isPriv, weeksDict ws, nowIso⟩, 0)
      else
        (setRepo c fn ⟨newEtag, isPriv, [], nowIso⟩, 0)
    | none =>
      if cachedWeeksNonempty c fn then (c, 0)
      else (setRepo c fn ⟨newEtag, isPriv, weeksDict fb, nowIso⟩, 1)

lemma lookupRepo_setRepo_self (c : Cache) (fn : String) (e : RepoEntry) :
    lookupRepo (setRepo c fn e) fn = some e := by
  induction c with
  | nil => simp [setRepo, lookupRepo]
  | cons p ps ih =>
    by_cases h : p.1 == fn
    · simp [setRepo, lookupRepo, h]
    · simp only [setRepo, h, if_neg, Bool.false_eq_true, not_false_eq_true]
      simpa [lookupRepo, List.find?, h] using ih

/-- C3: whenever the statistics call returns ready (200) with a non-empty week
list whose additions and deletions are all zero, `_process_repo` invokes the
history-walk fallback exactly once and the repository's cache entry afterward
holds exactly the fallback's weeks (possibly empty), not the all-zero API
weeks. -/
theorem C3_allzero_triggers_fallback (fn : String) (isPriv : Bool) (c : Cache)
    (ws fb : List ApiWeek) (newEtag : Option String) (nowIso : String)
    (hne : ws ≠ []) (hz : ∀ w ∈ ws, w.a = 0 ∧ w.d = 0) :
    (process_repo fn isPriv c (some ws) newEtag 200 fb nowIso).2 = 1 ∧
    lookupRepo (process_repo fn isPriv c (some ws) newEtag 200 fb nowIso).1 fn =
      some ⟨newEtag, isPriv, weeksDict fb, nowIso⟩ := by
  have hta : (ws.map (fun w => w.a)).sum = 0 := by
    apply List.sum_eq_zero
    intro x hx
    obtain ⟨w, hw, rfl⟩ := List.mem_map.mp hx
    exact (hz w hw).1
  have htd : (ws.map (fun w => w.d)).sum = 0 := by
    apply List.sum_eq_zero
    intro x hx
    obtain ⟨w, hw, rfl⟩ := List.mem_map.mp hx
    exact (hz w hw).2
  have hlen : ws.length > 0 := List.length_pos.mpr hne
  simp [process_repo, hlen, hta, htd, lookupRepo_setRepo_self]

theorem C3_allzero_triggers_fallback_witness :
    (0 : Nat) < [(⟨1704067200, 0, 0⟩ : ApiWeek)].length ∧
    (process_repo "o/r" false [] (some [⟨1704067200, 0, 0⟩]) (some "E") 200
        [⟨1704067200, 7, 3⟩] "now").2 = 1 ∧
    lookupRepo (process_repo "o/r" false [] (some [⟨1704067200, 0, 0⟩]) (some "E") 200
        [⟨1704067200, 7, 3⟩] "now").1 "o/r" =
      some ⟨some "E", false, [(1704067200, ⟨7, 3⟩)], "now"⟩ := by
  refine ⟨by decide, ?_⟩
  have h := C3_allzero_triggers_fallback "o/r" false [] [⟨1704067200, 0, 0⟩]
    [⟨1704067200, 7, 3⟩] (some "E") "now" (by decide) (by decide)
  exact ⟨h.1, by rw [h.2]; decide⟩

/-- C4: in pass 2, a repository still computing (202) hands `_process_repo` a
`None` week list.  If the prior cache entry holds a non-empty weeks mapping the
entry is left untouched and no fallback runs; if the prior entry is absent or
has an empty weeks mapping, the fallback runs exactly once, and when it
returns an empty list the repository's entry afterward exists with an empty
weeks mapping rather than being absent. -/
theorem C4_computing_pass2 (fn : String) (isPriv : Bool) (c : Cache)
    (newEtag : Option String) (fb : List ApiWeek) (nowIso : String) :
    (cachedWeeksNonempty c fn = true →
      process_repo fn isPriv c none newEtag 202 fb nowIso = (c, 0)) ∧
    (cachedWeeksNonempty c fn = false →
      (process_repo fn isPriv c none newEtag 202 fb nowIso).2 = 1 ∧
      (fb = [] →
        lookupRepo (process_repo fn isPriv c none newEtag 202 fb nowIso).1 fn =
          some ⟨newEtag, isPriv, [], nowIso⟩)) := by
  constructor
  · intro h
    simp [process_repo, h]
  · intro h
    constructor
    · simp [process_repo, h]
    · intro hfb
      subst hfb
      simp [process_repo, h, weeksDict, lookupRepo_setRepo_self]

theorem C4_computing_pass2_witness :
    cachedWeeksNonempty [("o/r", ⟨some "E", false, [], "t0"⟩)] "o/r" = false ∧
    (process_repo "o/r" false [("o/r", ⟨some "E", false, [], "t0"⟩)] none (some "E2") 202
        [] "t1").2 = 1 ∧
    lookupRepo (process_repo "o/r" false [("o/r", ⟨some "E", false, [], "t0"⟩)] none
        (some "E2") 202 [] "t1").1 "o/r" = some ⟨some "E2", false, [], "t1"⟩ := by
  have h := (C4_computing_pass2 "o/r" false [("o/r", ⟨some "E", false, [], "t0"⟩)]
    (some "E2") [] "t1").2 (by decide)
  exact ⟨by decide, h.1, h.2 rfl⟩

/-- C5: processing a repository whose statistics call returned 304 (unchanged)
returns the whole cache untouched — the repository's own entry and every other
entry are exactly what they were — and invokes no fallback. -/
theorem C5_unchanged_cache_untouched (fn : String) (isPriv : Bool) (c : Cache)
    (weeks : Option (List ApiWeek)) (newEtag : Option String) (fb : List ApiWeek)
    (nowIso : String) :
    process_repo fn isPriv c weeks newEtag 304 fb nowIso = (c, 0) := by
  simp [process_repo]

/-- One element of the contributor-statistics response body:
`contrib.get("author", {}).get("login", "")` and `contrib.get("weeks", [])`. -/
structure Contributor where
  login : String
  weeks : List ApiWeek
deriving DecidableEq, Repr

/-- The fields of an HTTP response that the script reads: the status code, the
`ETag` header, the parsed `X-RateLimit-Remaining` header (absent when the
header is missing), the parsed `X-RateLimit-Reset` header (the script defaults
it to 0), and the decoded JSON body for 200 responses. -/
structure HttpResponse where
  status : Nat
  etagHeader : Option String
  remaining : Option Int
  resetTs : Int
  body : List Contributor
deriving DecidableEq, Repr

/-- Observable blocking effects of the client. -/
inductive Effect where
  | sleep (seconds : Int)
deriving DecidableEq, Repr

/-- `_check_rate_limit`: read the remaining-quota header; when it is present
and below `RATE_LIMIT_FLOOR = 100`, sleep `max(reset - now, 1)` seconds. -/
def check_rate_limit (remaining : Option Int) (resetTs nowTs : Int) : List Effect :=
  match remaining with
  | none => []
  | some r => if r < 100 then [Effect.sleep (max (resetTs - nowTs) 1)] else []

/-- What `get_contributor_stats` hands back: `(weeks_for_user, new_etag,
http_status)` plus the trace of blocking effects it performed. -/
structure FetchResult where
  weeks : Option (List ApiWeek)
  etag : Option String
  status : Nat
  effects : List Effect
deriving DecidableEq, Repr

/-- `get_contributor_stats` over one concrete response: 304 returns the old
etag and no weeks; 202 returns the new etag and no weeks; 200 first runs
`_check_rate_limit`, then returns the first matching contributor's weeks
(case-insensitive login comparison) or an empty list when the user has no
commits; any other 4xx/5xx status raises via `resp.raise_for_status()`,
modelled as `Except.error status`. -/
def get_contributor_stats (user : String) (etag : Option String)
    (resp : HttpResponse) (nowTs : Int) : Except Nat FetchResult :=
  if resp.status = 304 then
    Except.ok ⟨none, etag, 304, []⟩
  else if resp.status = 202 then
    Except.ok ⟨none, resp.etagHeader, 202, []⟩
  else if resp.status = 200 then
    match resp.body.find? (fun contrib => contrib.login.toLower == user.toLower) with
    | some contrib =>
      Except.ok ⟨some contrib.weeks, resp.etagHeader, 200,
        check_rate_limit resp.remaining resp.resetTs nowTs⟩
    | none =>
      Except.ok ⟨some [], resp.etagHeader, 200,
        check_rate_limit resp.remaining resp.resetTs nowTs⟩
  else if 400 ≤ resp.status ∧ resp.status < 600 then
    Except.error resp.status
  else
    Except.ok ⟨none, resp.etagHeader, resp.status, []⟩

/-- C6 (amended): the remaining-quota header is inspected only on ready (200)
responses — there, below-floor quota produces a blocking sleep until the
advertised reset — while 304 and 202 responses are interpreted and returned
without any quota inspection or blocking. -/
theorem C6_rate_limit_checked_only_on_200 (user : String) (etag : Option String)
    (resp : HttpResponse) (nowTs : Int) (r : Int) :
    (resp.status = 200 → resp.remaining = some r → r < 100 →
      get_contributor_stats user etag resp nowTs =
        (match resp.body.find? (fun contrib => contrib.login.toLower == user.toLower) with
         | some contrib =>
            Except.ok ⟨some contrib.weeks, resp.etagHeader, 200,
              [Effect.sleep (max (resp.resetTs - nowTs) 1)]⟩
         | none =>
            Except.ok ⟨some [], resp.etagHeader, 200,
              [Effect.sleep (max (resp.resetTs - nowTs) 1)]⟩)) ∧
    (resp.status = 304 →
      get_contributor_stats user etag resp nowTs = Except.ok ⟨none, etag, 304, []⟩) ∧
    (resp.status = 202 →
      get_contributor_stats user etag resp nowTs = Except.ok ⟨none, resp.etagHeader, 202, []⟩) := by
  refine ⟨?_, ?_, ?_⟩
  · intro h200 hrem hr
    cases hf : resp.body.find? (fun contrib => contrib.login.toLower == user.toLower) <;>
      simp [get_contributor_stats, h200, hf, check_rate_limit, hrem, hr]
  · intro h304
    simp [get_contributor_stats, h304]
  · intro h202
    by_cases h304 : resp.status = 304
    · omega
    · simp [get_contributor_stats, h304, h202]

theorem C6_rate_limit_checked_only_on_200_witness :
    get_contributor_stats "u" none ⟨200, some "E", some (5 : Int), 100, []⟩ 10 =
      Except.ok ⟨some [], some "E", 200, [Effect.sleep 90]⟩ := by
  have h := (C6_rate_limit_checked_only_on_200 "u" none ⟨200, some "E", some 5, 100, []⟩
    10 5).1 rfl rfl (by decide)
  rw [h]
  rfl

/-- C6 counterexample: a still-computing (202) response carrying a
remaining-quota of 0 — far below the floor of 100 — is interpreted and
returned with an empty effect trace: the client neither inspects the quota nor
blocks, refuting "regardless of its status (including unchanged/304 and
still-computing/202)". -/
theorem C6_counterexample :
    (0 : Int) < 100 ∧
    get_contributor_stats "u" none ⟨202, some "E", some (0 : Int), 50, []⟩ 10 =
      Except.ok ⟨none, some "E", 202, []⟩ := by
  constructor
  · decide
  · rfl

/-- One discovered repository as the orchestrator sees it, together with the
scripted network behaviour of its statistics endpoint on each pass and the
week list the history-walk fallback would produce for it. -/
structure RepoInput where
  full_name : String
  isPrivate : Bool
  resp1 : HttpResponse
  resp2 : HttpResponse
  fb : List ApiWeek
deriving DecidableEq, Repr

/-- Insert one repository into a list sorted by full name, for
`sorted(all_repos.items())`. -/
def insertByName (r : RepoInput) : List RepoInput → List RepoInput
  | [] => [r]
  | x :: xs =>
    if r.full_name ≤ x.full_name then r :: x :: xs else x :: insertByName r xs

/-- `sorted(all_repos.items())`: pass 1 visits repositories in full-name
order. -/
def sortByName (l : List RepoInput) : List RepoInput :=
  l.foldr insertByName []

lemma mem_insertByName (r x : RepoInput) (l : List RepoInput) :
    x ∈ insertByName r l ↔ x = r ∨ x ∈ l := by
  induction l with
  | nil => simp [insertByName]
  | cons y ys ih =>
    by_cases h : r.full_name ≤ y.full_name
    · simp [insertByName, h]
    · simp only [insertByName, h, if_neg, not_false_eq_true, List.mem_cons, ih]
      tauto

lemma mem_sortByName (x : RepoInput) (l : List RepoInput) :
    x ∈ sortByName l ↔ x ∈ l := by
  induction l with
  | nil => simp [sortByName]
  | cons y ys ih =>
    simp only [sortByName, List.foldr_cons, mem_insertByName, List.mem_cons]
    rw [show List.foldr insertByName [] ys = sortByName ys from rfl] at *
    simp [ih]

/-- One iteration of `main`'s pass-1 loop for one repository: look the cached
etag up, call the statistics client, queue the repository on 202, otherwise
process the result into the cache.  An uncaught `HTTPError` propagates. -/
def pass1Step (user : String) (nowTs : Int) (nowIso : String)
    (st : Cache × List (RepoInput × Option String)) (r : RepoInput) :
    Except Nat (Cache × List (RepoInput × Option String)) :=
  match get_contributor_stats user ((lookupRepo st.1 r.full_name).bind (fun e => e.etag))
      r.resp1 nowTs with
  | Except.error s => Except.error s
  | Except.ok fr =>
    if fr.status = 202 then
      Except.ok (st.1, st.2 ++ [(r, fr.etag)])
    else
      Except.ok
        ((process_repo r.full_name r.isPrivate st.1 fr.weeks fr.etag fr.status r.fb nowIso).1,
          st.2)

/-- `main`'s pass-1 loop over the sorted repository list. -/
def runPass1 (user : String) (nowTs : Int) (nowIso : String) :
    List RepoInput → Cache × List (RepoInput × Option String) →
    Except Nat (Cache × List (RepoInput × Option String))
  | [], st => Except.ok st
  | r :: rs, st =>
    match pass1Step user nowTs nowIso st r with
    | Except.error s => Except.error s
    | Except.ok st' => runPass1 user nowTs nowIso rs st'

/-- One iteration of `main`'s pass-2 loop: re-fetch without a conditional
token and process the result (202 falls through into `_process_repo`, whose
`None` week list routes it to the cached-data-or-fallback logic). -/
def pass2Step (user : String) (nowTs : Int) (nowIso : String)
    (c : Cache) (pr : RepoInput × Option String) : Except Nat Cache :=
  match get_contributor_stats user none pr.1.resp2 nowTs with
  | Except.error s => Except.error s
  | Except.ok fr =>
    Except.ok (process_repo pr.1.full_name pr.1.isPrivate c fr.weeks fr.etag fr.status
      pr.1.fb nowIso).1

/-- `main`'s pass-2 loop over the deferred queue. -/
def runPass2 (user : String) (nowTs : Int) (nowIso : String) :
    List (RepoInput × Option String) → Cache → Except Nat Cache
  | [], c => Except.ok c
  | pr :: prs, c =>
    match pass2Step user nowTs nowIso c pr with
    | Except.error s => Except.error s
    | Except.ok c' => runPass2 user nowTs nowIso prs c'

/-- `main` after discovery: pass 1 over the sorted repository set, pass 2 over
the deferred queue, then the aggregate handed to the SVG renderer together
with the cache that `save_cache` persists.  A raised `HTTPError` from a
statistics call is caught nowhere in `main`, so it aborts the run before any
output or cache write, modelled as `Except.error`. -/
def runMain (user : String) (repos : List RepoInput) (cache0 : Cache)
    (nowTs : Int) (nowIso : String) : Except Nat (List (String × Totals) × Cache) :=
  match runPass1 user nowTs nowIso (sortByName repos) (cache0, []) with
  | Except.error s => Except.error s
  | Except.ok st =>
    match runPass2 user nowTs nowIso st.2 st.1 with
    | Except.error s => Except.error s
    | Except.ok c2 => Except.ok (compute_timeframes c2 nowTs, c2)

/-- Statuses on which `get_contributor_stats` raises through
`resp.raise_for_status()`: every 4xx/5xx (the handled 200/202/304 all lie
below 400). -/
def hardFailStatus (s : Nat) : Bool :=
  decide (400 ≤ s ∧ s < 600)

lemma get_contributor_stats_hardFail (user : String) (etag : Option String)
    (resp : HttpResponse) (nowTs : Int) (h : hardFailStatus resp.status = true) :
    get_contributor_stats user etag resp nowTs = Except.error resp.status := by
  simp only [hardFailStatus, decide_eq_true_eq] at h
  have h304 : resp.status ≠ 304 := by omega
  have h202 : resp.status ≠ 202 := by omega
  have h200 : resp.status ≠ 200 := by omega
  simp [get_contributor_stats, h304, h202, h200, h]

lemma get_contributor_stats_ok (user : String) (etag : Option String)
    (resp : HttpResponse) (nowTs : Int) (h : hardFailStatus resp.status = false) :
    ∃ fr, get_contributor_stats user etag resp nowTs = Except.ok fr := by
  have hne : ¬(400 ≤ resp.status ∧ resp.status < 600) := by
    simpa [hardFailStatus] using h
  cases hgc : get_contributor_stats user etag resp nowTs with
  | ok fr => exact ⟨fr, rfl⟩
  | error s =>
    exfalso
    by_cases h304 : resp.status = 304
    · simp [get_contributor_stats, h304] at hgc
    · by_cases h202 : resp.status = 202
      · simp [get_contributor_stats, h304, h202] at hgc
      · by_cases h200 : resp.status = 200
        · cases hf : resp.body.find? (fun contrib => contrib.login.toLower == user.toLower) with
          | none => simp [get_contributor_stats, h304, h202, h200, hf] at hgc
          | some contrib => simp [get_contributor_stats, h304, h202, h200, hf] at hgc
        · simp [get_contributor_stats, h304, h202, h200, hne] at hgc

lemma runPass1_error (user : String) (nowTs : Int) (nowIso : String)
    (l : List RepoInput) (st : Cache × List (RepoInput × Option String))
    (r : RepoInput) (hmem : r ∈ l) (hhard : hardFailStatus r.resp1.status = true) :
    ∃ s, runPass1 user nowTs nowIso l st = Except.error s := by
  induction l generalizing st with
  | nil => simp at hmem
  | cons x xs ih =>
    cases hfx : hardFailStatus x.resp1.status with
    | true =>
      refine ⟨x.resp1.status, ?_⟩
      have hgc := get_contributor_stats_hardFail user
        ((lookupRepo st.1 x.full_name).bind (fun e => e.etag)) x.resp1 nowTs hfx
      simp [runPass1, pass1Step, hgc]
    | false =>
      have hrx : r ∈ xs := by
        rcases List.mem_cons.mp hmem with h1 | h1
        · subst h1
          rw [hfx] at hhard
          exact absurd hhard (by simp)
        · exact h1
      obtain ⟨fr, hfr⟩ := get_contributor_stats_ok user
        ((lookupRepo st.1 x.full_name).bind (fun e => e.etag)) x.resp1 nowTs hfx
      by_cases h202 : fr.status = 202
      · have hstep : runPass1 user nowTs nowIso (x :: xs) st =
            runPass1 user nowTs nowIso xs (st.1, st.2 ++ [(x, fr.etag)]) := by
          simp [runPass1, pass1Step, hfr, h202]
        rw [hstep]
        exact ih _ hrx
      · have hstep : runPass1 user nowTs nowIso (x :: xs) st =
            runPass1 user nowTs nowIso xs
              ((process_repo x.full_name x.isPrivate st.1 fr.weeks fr.etag fr.status
                  x.fb nowIso).1, st.2) := by
          simp [runPass1, pass1Step, hfr, h202]
        rw [hstep]
        exact ih _ hrx

/-- C1 (amended): a hard failure (any 4xx/5xx status) from one repository's
statistics fetch propagates out of `main` uncaught: for every discovered
repository set containing such a repository, the entire run aborts, producing
no aggregate output and persisting no cache (so every stale cache entry
survives only because nothing is written at all).  Only credential-listing
failures are caught and contained. -/
theorem C1_hard_failure_aborts_run (user : String) (repos : List RepoInput)
    (cache0 : Cache) (nowTs : Int) (nowIso : String)
    (h : ∃ r ∈ repos, hardFailStatus r.resp1.status = true) :
    ∃ s, runMain user repos cache0 nowTs nowIso = Except.error s := by
  obtain ⟨r, hr, hhard⟩ := h
  obtain ⟨s, hs⟩ := runPass1_error user nowTs nowIso (sortByName repos) (cache0, []) r
    ((mem_sortByName r repos).mpr hr) hhard
  exact ⟨s, by simp [runMain, hs]⟩

theorem C1_hard_failure_aborts_run_witness :
    hardFailStatus 500 = true ∧
    (∃ s, runMain "u"
        [⟨"o/r", false, ⟨500, none, none, 0, []⟩, ⟨500, none, none, 0, []⟩, []⟩]
        [("o/r", ⟨none, false, [(0, ⟨1, 1⟩)], "t"⟩)] 1700000000 "now" = Except.error s) :=
  ⟨by decide,
    C1_hard_failure_aborts_run "u"
      [⟨"o/r", false, ⟨500, none, none, 0, []⟩, ⟨500, none, none, 0, []⟩, []⟩]
      [("o/r", ⟨none, false, [(0, ⟨1, 1⟩)], "t"⟩)] 1700000000 "now"
      ⟨⟨"o/r", false, ⟨500, none, none, 0, []⟩, ⟨500, none, none, 0, []⟩, []⟩,
        by simp, by decide⟩⟩

/-- C1 counterexample: a single discovered repository whose statistics fetch
returns 500 on pass 1, with a prior cache holding data.  The run does not
complete: `main` raises, produces no aggregate output and never reaches
`save_cache` — refuting "no per-repository failure aborts the entire run". -/
theorem C1_counterexample :
    runMain "u" [⟨"o/r", false, ⟨500, none, none, 0, []⟩, ⟨500, none, none, 0, []⟩, []⟩]
      [("o/r", ⟨none, false, [(0, ⟨1, 1⟩)], "t"⟩)] 1700000000 "now" =
      Except.error 500 := rfl

/-- A decoded JSON value, as `json.load` can return one. -/
inductive Json where
  | null
  | bool (b : Bool)
  | num (n : Int)
  | str (s : String)
  | arr (xs : List Json)
  | obj (fields : List (String × Json))

/-- The states the persisted cache file can be in when a run starts: missing,
present but not decodable as JSON (`json.JSONDecodeError`), or decodable to
some JSON value. -/
inductive CacheFileState where
  | absent
  | undecodable
  | decoded (j : Json)

/-- `load_cache`: an absent file and a `JSONDecodeError` both yield `{}`;
otherwise whatever JSON value the file decodes to is returned as-is, with no
shape check.  It never raises. -/
def load_cache : CacheFileState → Json
  | CacheFileState.absent => Json.obj []
  | CacheFileState.undecodable => Json.obj []
  | CacheFileState.decoded j => j

/-- C7 (amended): loading an absent or JSON-undecodable cache file never
raises and yields the empty cache, and aggregating the freshly empty cache
(`main` bootstraps `cache["repos"] = {}`) returns
additions = deletions = total = 0 for every time window.  Content that decodes
to the wrong shape, however, is returned as-is, not reset to empty. -/
theorem C7_load_absent_or_corrupt_empty (fs : CacheFileState)
    (h : fs = CacheFileState.absent ∨ fs = CacheFileState.undecodable) :
    load_cache fs = Json.obj [] ∧
    ∀ (nowTs : Int) (label : String), windowTotals [] nowTs label = ⟨0, 0, 0⟩ := by
  constructor
  · rcases h with h | h <;> rw [h] <;> rfl
  · intro nowTs label
    have hct : compute_timeframes [] nowTs =
        [("All Time", ⟨0, 0, 0⟩), ("Last Year", ⟨0, 0, 0⟩),
          ("Last Month", ⟨0, 0, 0⟩), ("Last Week", ⟨0, 0, 0⟩)] := by
      simp [compute_timeframes, TIME_FRAMES, frameAdds, frameDels]
    unfold windowTotals
    rw [hct]
    cases hf : (([("All Time", (⟨0, 0, 0⟩ : Totals)), ("Last Year", ⟨0, 0, 0⟩),
        ("Last Month", ⟨0, 0, 0⟩), ("Last Week", ⟨0, 0, 0⟩)] : List (String × Totals)).find?
        (fun p => p.1 == label)) with
    | none => rfl
    | some p =>
      have hp := List.mem_of_find?_eq_some hf
      simp at hp
      rcases hp with h1 | h1 | h1 | h1 <;> simp [h1]

theorem C7_load_absent_or_corrupt_empty_witness :
    load_cache CacheFileState.absent = Json.obj [] ∧
    windowTotals [] 1700000000 "Last Year" = ⟨0, 0, 0⟩ :=
  ⟨(C7_load_absent_or_corrupt_empty CacheFileState.absent (Or.inl rfl)).1,
    (C7_load_absent_or_corrupt_empty CacheFileState.absent (Or.inl rfl)).2 1700000000 "Last Year"⟩

/-- C7 counterexample: a cache file whose content is valid JSON but not a
cache-shaped object — here the JSON array `[]` — is unrecognized content, yet
`load_cache` returns it unchanged rather than resetting to the empty cache
(`main` then crashes on `cache["repos"] = {}` with a `TypeError`). -/
theorem C7_counterexample :
    load_cache (CacheFileState.decoded (Json.arr [])) = Json.arr [] ∧
    Json.arr [] ≠ Json.obj [] := by
  constructor
  · rfl
  · intro h
    exact Json.noConfusion h


/-- A line of `git log` output, modelled as its list of characters (Lean's
built-in `String` functions do not reduce inside the kernel, so the embedding
works on the character lists themselves). -/
abbrev PyStr := List Char

/-- The whitespace characters Python's `str.strip` removes. -/
def isSpaceChar (ch : Char) : Bool :=
  ch = ' ' || ch = '\t' || ch = '\n' || ch = '\r' || ch = '\x0b' || ch = '\x0c'

/-- Remove leading whitespace. -/
def trimLeft : PyStr → PyStr
  | [] => []
  | ch :: cs => if isSpaceChar ch then trimLeft cs else ch :: cs

/-- Python `str.strip()`: remove leading and trailing whitespace. -/
def pyTrim (s : PyStr) : PyStr :=
  trimLeft ((trimLeft s.reverse).reverse)

/-- Python `str.isdigit` for the ASCII content of `git log` output: non-empty
and all digits. -/
def pyIsDigit (s : PyStr) : Bool :=
  !s.isEmpty && s.all (fun ch => ch.isDigit)

/-- Decimal value of a digit string, most significant digit first. -/
def digitsToNat : PyStr → Nat → Nat
  | [], acc => acc
  | ch :: cs, acc => digitsToNat cs (acc * 10 + (ch.toNat - 48))

/-- Python `str.split("\t")`: split on every tab, keeping empty parts. -/
def splitTab : PyStr → List PyStr
  | [] => [[]]
  | ch :: cs =>
    if ch = '\t' then [] :: splitTab cs
    else
      match splitTab cs with
      | [] => [[ch]]
      | p :: ps => (ch :: p) :: ps

/-- Python `int(s)` on the count strings seen in `--numstat` output: optional
surrounding whitespace, an optional sign, then decimal digits, `none`
modelling a raised `ValueError`.  (CPython additionally accepts digit-group
underscores, which `git` never emits.) -/
def pyInt? (s : PyStr) : Option Int :=
  match pyTrim s with
  | [] => none
  | ch :: cs =>
    if ch = '-' then
      if !cs.isEmpty && cs.all (fun c2 => c2.isDigit) then
        some (-(digitsToNat cs 0 : Int))
      else none
    else if ch = '+' then
      if !cs.isEmpty && cs.all (fun c2 => c2.isDigit) then
        some ((digitsToNat cs 0 : Int))
      else none
    else
      if (ch :: cs).all (fun c2 => c2.isDigit) then
        some ((digitsToNat (ch :: cs) 0 : Int))
      else none

/-- The loop state of `clone_and_count`'s parser: the most recently seen
commit timestamp (`current_ts`) and the `weekly` map built so far. -/
structure WalkState where
  current_ts : Option Int
  weekly : List (Int × WeekData)
deriving DecidableEq, Repr

/-- Monday-00:00-UTC start of the week containing a Unix timestamp:
`dt - timedelta(days=dt.weekday())` with hour, minute and second zeroed.  Day
0 of the Unix epoch was a Thursday, so the weekday index (Monday = 0) of day
`n` is `(n + 3) % 7`; Python's floor-division and non-negative remainder are
`Int.fdiv` and `Int.emod`. -/
def weekStartTs (ts : Int) : Int :=
  (ts.fdiv 86400 - (ts.fdiv 86400 + 3).emod 7) * 86400

/-- Accumulate one file's counts into a week bucket, creating the bucket at
zero first exactly as the source's `if week_ts not in weekly` does. -/
def bumpWeek : List (Int × WeekData) → Int → Int → Int → List (Int × WeekData)
  | [], k, adds, dels => [(k, ⟨adds, dels⟩)]
  | p :: ps, k, adds, dels =>
    if p.1 == k then (k, ⟨p.2.a + adds, p.2.d + dels⟩) :: ps
    else p :: bumpWeek ps k adds dels

/-- Handle one `additions TAB deletions TAB filename` numstat pair under the
current commit timestamp: a `-` count is replaced by 0, a count that parses
is used as-is, and a `ValueError` from either count skips the pair
(`continue`). -/
def processPair (st : WalkState) (ts : Int) (p0 p1 : PyStr) : WalkState :=
  match (if p0 = ['-'] then some 0 else pyInt? p0),
      (if p1 = ['-'] then some 0 else pyInt? p1) with
  | some adds, some dels => ⟨st.current_ts, bumpWeek st.weekly (weekStartTs ts) adds dels⟩
  | _, _ => st

/-- One line of `git log --pretty=format:%at --numstat` output: blank lines
are skipped, an all-digit line sets the current commit timestamp, and a line
splitting on tabs into at least three parts is a numstat pair (processed only
once a timestamp has been seen). -/
def numstatStep (st : WalkState) (rawLine : PyStr) : WalkState :=
  let line := pyTrim rawLine
  if line.isEmpty then st
  else if pyIsDigit line then ⟨some (digitsToNat line 0 : Nat), st.weekly⟩
  else
    match splitTab line, st.current_ts with
    | p0 :: p1 :: _ :: _, some ts => processPair st ts p0 p1
    | _, _ => st

/-- Insertion into a week list sorted by week-start key, for
`sorted(weekly.items())`. -/
def insertByKey (p : Int × WeekData) : List (Int × WeekData) → List (Int × WeekData)
  | [] => [p]
  | q :: qs => if p.1 ≤ q.1 then p :: q :: qs else q :: insertByKey p qs

/-- `sorted(weekly.items())`. -/
def sortByKey (l : List (Int × WeekData)) : List (Int × WeekData) :=
  l.foldr insertByKey []

/-- The parsing phase of `clone_and_count`: fold the log lines through
`numstatStep` starting from no timestamp and an empty week map, then emit the
synthetic week entries `[{"w": ts, "a": ..., "d": ...}]` sorted by week
start. -/
def parseNumstat (lines : List PyStr) : List ApiWeek :=
  (sortByKey ((lines.foldl numstatStep ⟨none, []⟩).weekly)).map
    (fun p => ⟨p.1, p.2.a, p.2.d⟩)

/-- C8 (amended): in the history walk each numstat pair with numeric counts is
summed into the bucket of the ISO week (Monday 00:00 UTC) containing the
commit's timestamp; a pair whose counts are the binary-file marker `-` is not
skipped but treated as adding zero to both counts, still instantiating that
week's bucket; and a pair whose count is otherwise non-numeric raises
`ValueError` and is skipped, contributing nothing. -/
theorem C8_week_bucketing_and_binary_files (st : WalkState) (w : List (Int × WeekData))
    (ts a d : Int) (p0 p1 : PyStr) :
    (pyInt? p0 = some a → pyInt? p1 = some d → p0 ≠ ['-'] → p1 ≠ ['-'] →
      processPair st ts p0 p1 =
        ⟨st.current_ts, bumpWeek st.weekly (weekStartTs ts) a d⟩) ∧
    (processPair st ts ['-'] ['-'] =
      ⟨st.current_ts, bumpWeek st.weekly (weekStartTs ts) 0 0⟩) ∧
    (pyInt? p0 = none → p0 ≠ ['-'] → processPair st ts p0 p1 = st) ∧
    (numstatStep ⟨some ts, w⟩ ['-', '\t', '-', '\t', 'i', 'm', 'g'] =
      ⟨some ts, bumpWeek w (weekStartTs ts) 0 0⟩) := by
  refine ⟨?_, ?_, ?_, ?_⟩
  · intro h0 h1 hn0 hn1
    simp [processPair, h0, h1, hn0, hn1]
  · simp [processPair]
  · intro h0 hn0
    simp [processPair, h0, hn0]
  · rfl

theorem C8_week_bucketing_and_binary_files_witness :
    pyInt? ['7'] = some 7 ∧ pyInt? ['3'] = some 3 ∧
    processPair ⟨some 100, []⟩ 100 ['7'] ['3'] = ⟨some 100, [(-259200, ⟨7, 3⟩)]⟩ ∧
    pyInt? ['x'] = none ∧
    processPair ⟨some 100, []⟩ 100 ['x'] ['3'] = ⟨some 100, []⟩ := by
  have h := C8_week_bucketing_and_binary_files ⟨some 100, []⟩ [] 100 7 3 ['7'] ['3']
  have hx := C8_week_bucketing_and_binary_files ⟨some 100, []⟩ [] 100 7 3 ['x'] ['3']
  refine ⟨by decide, by decide, ?_, by decide, ?_⟩
  · rw [h.1 (by decide) (by decide) (by decide) (by decide)]
    rfl
  · exact hx.2.2.1 (by decide) (by decide)

/-- C8 counterexample: a commit at timestamp 100 whose only change is a
binary file (the numstat line `- TAB - TAB img.png`).  The claim says such a
pair is skipped, contributing nothing to any week's bucket — so the walk's
output would equal the output with the pair removed, namely `[]`.  The code
instead creates that week's bucket and emits it with zero additions and
deletions. -/
theorem C8_counterexample :
    parseNumstat [['1', '0', '0'], ['-', '\t', '-', '\t', 'i', 'm', 'g', '.', 'p', 'n', 'g']] =
        [⟨-259200, 0, 0⟩] ∧
      parseNumstat [['1', '0', '0']] = [] := by
  constructor
  · decide
  · decide

/-- The file-system operations `save_cache` could perform, as an effect
vocabulary: ensuring a directory exists, opening a path with mode `"w"`
(which truncates the existing file in place), writing the JSON dump through
an open handle, and atomically renaming one path onto another. -/
inductive FsOp where
  | mkdirParents (path : String)
  | openTrunc (path : String)
  | writeJson (path : String)
  | rename (src dst : String)
deriving DecidableEq, Repr

/-- `CACHE_PATH`, relative to the repository root. -/
def CACHE_PATH : String := "data/loc-cache.json"

/-- The file-system trace of `save_cache`: `CACHE_PATH.parent.mkdir(...)`,
then `open(CACHE_PATH, "w")` — an in-place truncation of the existing cache
file — then `json.dump` into that handle.  (The `cache["last_updated"]` stamp
it also sets touches only the in-memory dict.) -/
def save_cache_ops : List FsOp :=
  [FsOp.mkdirParents "data", FsOp.openTrunc CACHE_PATH, FsOp.writeJson CACHE_PATH]

/-- Recognizer for rename operations. -/
def isRenameOp : FsOp → Bool
  | FsOp.rename _ _ => true
  | _ => false

/-- Recognizer for write operations. -/
def isWriteOp : FsOp → Bool
  | FsOp.writeJson _ => true
  | _ => false

/-- C9 (amended): `save_cache` persists the cache by opening the cache file
itself in truncating write mode and writing the JSON dump in place; it writes
to no separate location and performs no replace/rename, so a crash mid-write
can leave a truncated or partial cache file (which the next `load_cache`
recovers from only by resetting to empty). -/
theorem C9_save_truncates_in_place :
    FsOp.openTrunc CACHE_PATH ∈ save_cache_ops ∧
    save_cache_ops.filter isRenameOp = [] ∧
    save_cache_ops.filter isWriteOp = [FsOp.writeJson CACHE_PATH] := by
  refine ⟨?_, ?_, ?_⟩ <;> decide

/-- C9 counterexample: write-new-then-replace would require writing a
separate location and renaming it onto the cache path; `save_cache`'s trace
contains no rename at all (and its only write targets the cache path
directly), refuting the claim. -/
theorem C9_counterexample :
    ¬ ∃ tmp, tmp ≠ CACHE_PATH ∧ FsOp.writeJson tmp ∈ save_cache_ops ∧
      FsOp.rename tmp CACHE_PATH ∈ save_cache_ops := by
  rintro ⟨tmp, htmp, hw, hr⟩
  simp [save_cache_ops] at hr
